import Mathlib

/-!
Shallow embedding of the FFE reader (`src/emdata/_feko.py`, class `FFEReader`)
from the `emdata-py` repository, together with theorems settling the frozen
claims about it.

Python strings are modelled as Lean `String` (lists of characters), Python
floats as `ℚ` (all numeric literals occurring in the claims are exact
decimals), Python exceptions as an explicit `Except` error channel, and the
mutable class-level column-header map (`FFEReader._col_hdr_map`) as explicit
state: because `_parse_column_header` assigns map entries by reference
(`c = FFEReader._col_hdr_map[k]`) and then mutates them (`c["data"] = []`),
a column produced for a matched label is an alias of the table entry, so
the per-entry `"data"` list is threaded through the parse as a table state
(`Tbl`) and columns are references (`ColRef.shared i`) into it, while
unmatched labels get fresh unaliased dictionaries (`ColRef.unique`).
-/

namespace Feko

/-- Python/regex whitespace test for a character (model of `\s` and `str.strip`). -/
def isWS (c : Char) : Bool := c.isWhitespace

/-- Strip leading and trailing whitespace from a character list
(model of Python `str.lstrip().rstrip()`). -/
def stripChars (l : List Char) : List Char :=
  ((l.dropWhile isWS).reverse.dropWhile isWS).reverse

/-- Model of `l.lstrip().rstrip()` on strings. -/
def pyStrip (s : String) : String := ⟨stripChars s.data⟩

/-- Model of `FFEReader._is_header`: the compiled regex is `^(#|\*)`, searched
against the (already stripped) line, i.e. the line starts with `#` or `*`. -/
def isHeader (s : String) : Bool :=
  match s.data with
  | [] => false
  | c :: _ => c == '#' || c == '*'

/-- Worker for `splitRuns`.  The mode is `some cur` while accumulating a token
(characters collected in reverse) and `none` just after a separator run has
started; a trailing separator run yields a final empty token, as Python
`re.split` does. -/
def splitRunsGo (p : Char → Bool) (mode : Option (List Char)) : List Char → List (List Char)
  | [] =>
    match mode with
    | some cur => [cur.reverse]
    | none => [[]]
  | c :: cs =>
    match mode with
    | some cur =>
      if p c then cur.reverse :: splitRunsGo p none cs
      else splitRunsGo p (some (c :: cur)) cs
    | none =>
      if p c then splitRunsGo p none cs
      else splitRunsGo p (some [c]) cs

/-- Model of Python `re.split(r'[..]+', s)`: split on maximal runs of
characters satisfying `p`; leading/trailing runs produce empty tokens and the
empty string yields `[""]`, exactly as `re.split` does. -/
def splitRuns (p : Char → Bool) (l : List Char) : List (List Char) :=
  splitRunsGo p (some []) l

/-- Model of `re.split(r'\s+', s)` used by `_parse_data_line`. -/
def splitWS (s : String) : List String :=
  (splitRuns isWS s.data).map (fun l => (⟨l⟩ : String))

/-- Take the maximal run of leading decimal digits. -/
def takeDigits (l : List Char) : List Char × List Char :=
  (l.takeWhile Char.isDigit, l.dropWhile Char.isDigit)

/-- Numeric value of a digit string. -/
def digitsToNat (l : List Char) : ℕ :=
  l.foldl (fun a c => a * 10 + (c.toNat - 48)) 0

/-- The rational value of a decimal literal with sign `sgn`, integer digits
`ip`, fraction digits `fp` and decimal exponent `ex`:
`sgn * (ip.fp) * 10^ex`.  Built from integer arithmetic and one `Rat.divInt`
so that it evaluates by kernel reduction. -/
def pyFloatVal (sgn : ℤ) (ip fp : List Char) (ex : ℤ) : ℚ :=
  let m : ℤ := (digitsToNat (ip ++ fp) : ℤ)
  let e : ℤ := ex - (fp.length : ℤ)
  if 0 ≤ e then Rat.divInt (sgn * m * (10 : ℤ) ^ e.toNat) 1
  else Rat.divInt (sgn * m) ((10 : ℤ) ^ (-e).toNat)

/-- Mantissa-and-exponent tail of the float grammar: given the sign and the
integer/fraction digit runs, accept an optional `e`/`E` exponent and require
the remainder to be empty. -/
def pyFloatCore (sgn : ℤ) (ip fp : List Char) (rest : List Char) : Option ℚ :=
  match rest with
  | [] => some (pyFloatVal sgn ip fp 0)
  | e :: t =>
    if e == 'e' || e == 'E' then
      let st : ℤ × List Char :=
        match t with
        | '+' :: u => (1, u)
        | '-' :: u => (-1, u)
        | _ => (1, t)
      let (ed, rest2) := takeDigits st.2
      if ed.isEmpty || !rest2.isEmpty then none
      else some (pyFloatVal sgn ip fp (st.1 * (digitsToNat ed : ℤ)))
    else none

/-- Model of Python `float(s)` on decimal literals:
`[+-]? (digits [. digits*] | . digits+) ([eE] [+-]? digits+)?`, returning
`none` where `float` raises `ValueError`.  (Exotic accepted forms such as
`inf`/`nan`/underscore separators do not occur in this development.) -/
def pyFloat (s : String) : Option ℚ :=
  let cs := s.data
  let sc : ℤ × List Char :=
    match cs with
    | '+' :: t => (1, t)
    | '-' :: t => (-1, t)
    | _ => (1, cs)
  let (ip, cs2) := takeDigits sc.2
  match cs2 with
  | '.' :: t =>
    let (fp, rest) := takeDigits t
    if ip.isEmpty && fp.isEmpty then none else pyFloatCore sc.1 ip fp rest
  | _ => if ip.isEmpty then none else pyFloatCore sc.1 ip [] cs2

/-- A cell value: Python float (as `ℚ`) or raw string token. -/
inductive Value where
  | num (q : ℚ)
  | str (s : String)
deriving DecidableEq, Repr

/-- A column descriptor: the non-`data` fields of a column dictionary. -/
structure ColDesc where
  quantity : String
  vectorComponent : Option String := none
  phasorComponent : Option String := none
  units : Option String := none
  description : Option String := none
deriving DecidableEq, Repr

/-- The shape of the regexes appearing in `_col_hdr_map`: either `^p`
(match at start) or `a.*b` (an occurrence of `a` followed by one of `b`),
always searched case-insensitively. -/
inductive Pat where
  | startsW (p : String)
  | seq (a b : String)
deriving DecidableEq, Repr

/-- Character-wise lowercase map (model of Python `str.lower()` /
`re.IGNORECASE` on the ASCII inputs at hand). -/
def lowerChars (l : List Char) : List Char := l.map Char.toLower

/-- Substring occurrence test on character lists. -/
def containsSub (sub : List Char) : List Char → Bool
  | [] => sub.isEmpty
  | c :: t => sub.isPrefixOf (c :: t) || containsSub sub t

/-- The text after the first occurrence of `sub`, if any. -/
def afterFirst (sub : List Char) : List Char → Option (List Char)
  | [] => if sub.isEmpty then some [] else none
  | c :: t =>
    if sub.isPrefixOf (c :: t) then some ((c :: t).drop sub.length)
    else afterFirst sub t

/-- Match of the regex `a.*b` (searched anywhere): an occurrence of `a`
with an occurrence of `b` after it. -/
def containsThen (a b l : List Char) : Bool :=
  match afterFirst a l with
  | some r => containsSub b r
  | none => false

/-- The text after the last occurrence of `sub`, if any (the greedy `.*` of
`re.sub(r'.*exported by\s*', ...)` consumes through the last occurrence). -/
def afterLast (sub : List Char) : List Char → Option (List Char)
  | [] => if sub.isEmpty then some [] else none
  | c :: t =>
    match afterLast sub t with
    | some r => some r
    | none =>
      if sub.isPrefixOf (c :: t) then some ((c :: t).drop sub.length)
      else none

/-- Case-insensitive match of one `_col_hdr_map` regex against a label. -/
def patMatches (p : Pat) (hdr : String) : Bool :=
  match p with
  | .startsW s => s.data.isPrefixOf (lowerChars hdr.data)
  | .seq a b => containsThen a.data b.data (lowerChars hdr.data)

/-- Model of `FFEReader._col_hdr_map`: the ordered list of
(regex, descriptor-template) pairs, in declaration order. -/
def colHdrMap : List (Pat × ColDesc) :=
  [ (.startsW "theta",
      { quantity := "coordinate", vectorComponent := some "theta", units := some "degrees" }),
    (.startsW "phi",
      { quantity := "coordinate", vectorComponent := some "phi", units := some "degrees" }),
    (.seq "re" "etheta",
      { quantity := "electric field", vectorComponent := some "theta",
        phasorComponent := some "real", units := some "V/m" }),
    (.seq "im" "etheta",
      { quantity := "electric field", vectorComponent := some "theta",
        phasorComponent := some "imaginary", units := some "V/m" }),
    (.seq "re" "ephi",
      { quantity := "electric field", vectorComponent := some "phi",
        phasorComponent := some "real", units := some "V/m" }),
    (.seq "im" "ephi",
      { quantity := "electric field", vectorComponent := some "phi",
        phasorComponent := some "imaginary", units := some "V/m" }),
    (.seq "dir" "theta",
      { quantity := "directivity", vectorComponent := some "theta",
        phasorComponent := some "magnitude", units := some "dBi" }),
    (.seq "dir" "phi",
      { quantity := "directivity", vectorComponent := some "phi",
        phasorComponent := some "magnitude", units := some "dBi" }),
    (.seq "dir" "total",
      { quantity := "directivity", vectorComponent := some "total",
        phasorComponent := some "magnitude", units := some "dBi" }),
    (.seq "gain" "theta",
      { quantity := "gain", vectorComponent := some "theta",
        phasorComponent := some "magnitude", units := some "dBi" }),
    (.seq "gain" "phi",
      { quantity := "gain", vectorComponent := some "phi",
        phasorComponent := some "magnitude", units := some "dBi" }),
    (.seq "gain" "total",
      { quantity := "gain", vectorComponent := some "total",
        phasorComponent := some "magnitude", units := some "dBi" }) ]

/-- Index scan helper: first index whose pattern matches. -/
def colHdrLookupGo (hdr : String) (i : ℕ) : List (Pat × ColDesc) → Option ℕ
  | [] => none
  | e :: rest => if patMatches e.1 hdr then some i else colHdrLookupGo hdr (i + 1) rest

/-- First `_col_hdr_map` entry matching a label, in declaration order
(the `match == False` guard in the source makes the first match win). -/
def colHdrLookup (hdr : String) : Option ℕ := colHdrLookupGo hdr 0 colHdrMap

/-- The `"data"` lists living inside the class-level `_col_hdr_map` entries,
one per entry (`none` = the entry has no `"data"` key yet). -/
abbrev Tbl := List (Option (List Value))

/-- Initial table state: no entry has a `"data"` key. -/
def initTbl : Tbl := List.replicate colHdrMap.length none

/-- A column of an in-progress dataset.  `shared i` is an alias of map entry
`i` (the source stores the map entry itself, uncopied); `unique` is the fresh
default dictionary `{"quantity": "unknown", "description": hdr}` made for an
unmatched label, together with its own `"data"` list. -/
inductive ColRef where
  | shared (i : ℕ)
  | unique (hdr : String) (data : List Value)
deriving DecidableEq, Repr

/-- Process the label tokens of a column-header line in order: a matched
label aliases the map entry and resets that entry's `"data"` to `[]`
(`c["data"] = []` mutates the shared dictionary); an unmatched label gets a
fresh dictionary. -/
def parseColumnHeaderGo (tbl : Tbl) : List String → List ColRef × Tbl
  | [] => ([], tbl)
  | h :: hs =>
    match colHdrLookup h with
    | some i =>
      let t2 := parseColumnHeaderGo (tbl.set i (some [])) hs
      (.shared i :: t2.1, t2.2)
    | none =>
      let t2 := parseColumnHeaderGo tbl hs
      (.unique h [] :: t2.1, t2.2)

/-- Model of `FFEReader._parse_column_header`: strip whitespace, strip all
leading and trailing double quotes, split on runs of `["|\s]`, and match each
token against the map. -/
def parseColumnHeader (tbl : Tbl) (line : String) : List ColRef × Tbl :=
  let cs := stripChars line.data
  let cs2 := ((cs.dropWhile (· == '"')).reverse.dropWhile (· == '"')).reverse
  let hdrs := (splitRuns (fun c => c == '"' || c == '|' || isWS c) cs2).map
    (fun l => (⟨l⟩ : String))
  parseColumnHeaderGo tbl hdrs

/-- A `{"value": .., "units": "Hz"}` frequency dictionary. -/
structure FreqV where
  value : ℚ
  units : String
deriving DecidableEq, Repr

/-- A `{"units": "meters", "x": .., "y": .., "z": ..}` position dictionary. -/
structure PosV where
  units : String
  x : ℚ
  y : ℚ
  z : ℚ
deriving DecidableEq, Repr

/-- One key/value produced by `_parse_header` (the returned dicts always have
at most one key). -/
inductive Assign where
  | aData (cols : List ColRef)
  | aSource (v : String)
  | aDate (v : String)
  | aFreq (v : FreqV)
  | aPos (v : PosV)
  | aNamed (k v : String)
  | aDescr (v : String)
deriving DecidableEq, Repr

/-- The Python exceptions that can escape `FFEReader.read` uncaught. -/
inductive PyErr where
  | valueError
  | typeError
  | keyError
  | indexError
deriving DecidableEq, Repr

/-- Strip trailing whitespace from a character list. -/
def rstripWS (l : List Char) : List Char := (l.reverse.dropWhile isWS).reverse

/-- Worker for `splitKV`: find the first colon that is immediately followed
by a whitespace character; the leftmost `\s*:\s+` match then spans the
contiguous whitespace run before that colon and the maximal run after it. -/
def splitKVGo (acc : List Char) : List Char → Option (List Char × List Char)
  | [] => none
  | c :: cs =>
    if c == ':' && (match cs with | c2 :: _ => isWS c2 | [] => false) then
      some (rstripWS acc.reverse, cs.dropWhile isWS)
    else splitKVGo (c :: acc) cs

/-- Model of `re.split(r'\s*:\s+', line, maxsplit=1)` followed by the
two-element unpacking: `none` when the pattern never matches (the unpacking
then raises `ValueError`). -/
def splitKV (l : List Char) : Option (List Char × List Char) := splitKVGo [] l

/-- Case-insensitive key test for `re.match(r'<word>', k, re.IGNORECASE)`
(anchored at the start, hence a lowercase-prefix test). -/
def lowerStarts (k p : String) : Bool := p.data.isPrefixOf (lowerChars k.data)

/-- Case-insensitive test for `re.match(r'.*name', k, re.IGNORECASE)`
(`.*` makes it a substring test). -/
def lowerContains (k p : String) : Bool := containsSub p.data (lowerChars k.data)

/-- Model of `list(map(float, toks))`: all tokens must parse or the whole
call raises. -/
def floatsOf : List String → Option (List ℚ)
  | [] => some []
  | s :: rest =>
    match pyFloat s, floatsOf rest with
    | some q, some qs => some (q :: qs)
    | _, _ => none

/-- Model of `FFEReader._parse_keyvalue_header`.  A `Frequency` value that
`float` rejects raises `ValueError`; an `Origin` value with a non-numeric
token raises `ValueError` (the `map(float, ...)` runs first) and one with
fewer than three tokens raises `IndexError` (at `p[2]`); an unmatched key
yields the empty dict, i.e. no assignment. -/
def parseKeyvalueHeader (line : String) : Except PyErr (Option Assign) :=
  match splitKV (stripChars line.data) with
  | none => .error .valueError
  | some (kc, dc) =>
    let k : String := ⟨kc⟩
    let d : String := ⟨dc⟩
    if lowerStarts k "source" then .ok (some (.aSource d))
    else if lowerStarts k "date" then .ok (some (.aDate d))
    else if lowerStarts k "frequency" then
      match pyFloat d with
      | none => .error .valueError
      | some q => .ok (some (.aFreq ⟨q, "Hz"⟩))
    else if lowerStarts k "origin" then
      let cleaned := dc.filter (fun c => !(c == '(' || c == ')' || isWS c))
      let toks := (splitRuns (fun c => isWS c || c == '|' || c == ',') cleaned).map
        (fun l => (⟨l⟩ : String))
      match floatsOf toks with
      | none => .error .valueError
      | some ps =>
        match ps with
        | p0 :: p1 :: p2 :: _ => .ok (some (.aPos ⟨"meters", p0, p1, p2⟩))
        | _ => .error .indexError
    else if lowerContains k "name" then .ok (some (.aNamed k d))
    else .ok none

/-- Model of `re.sub(r'.*exported by\s*', r'', l)`: case-sensitive, greedy —
everything through the last occurrence of `exported by` plus following
whitespace is removed; with no (case-sensitive) occurrence the line is
returned unchanged. -/
def exportedBySub (l : List Char) : List Char :=
  match afterLast "exported by".data l with
  | some r => r.dropWhile isWS
  | none => l

/-- Model of `FFEReader._parse_header`: strip the leading `(#|\*|\s)+` run,
then dispatch on: leading double quote (column-header row), a colon
(key/value header), the case-insensitive phrase `exported by` (version
banner), else a free-text description.  The table state is threaded because
the column-header branch mutates the shared map entries. -/
def parseHeader (tbl : Tbl) (line : String) : Except PyErr (Tbl × Option Assign) :=
  let l := (stripChars line.data).dropWhile (fun c => c == '#' || c == '*' || isWS c)
  match l with
  | '"' :: _ =>
    let ct := parseColumnHeader tbl ⟨l⟩
    .ok (ct.2, some (.aData ct.1))
  | _ =>
    if l.contains ':' then
      (parseKeyvalueHeader ⟨l⟩).map (fun a => (tbl, a))
    else if containsSub "exported by".data (lowerChars l) then
      .ok (tbl, some (.aSource ⟨exportedBySub l⟩))
    else
      .ok (tbl, some (.aDescr ⟨l⟩))

/-- Model of `FFEReader._parse_data_line`: blank lines yield nothing;
otherwise split on whitespace runs and return floats if every token parses,
else the raw string tokens (all-or-nothing); an empty first token also
yields nothing. -/
def parseDataLine (line : String) : Option (List Value) :=
  if line.data.all isWS then none
  else
    match splitWS line with
    | [] => none
    | t :: rest =>
      if t.data.isEmpty then none
      else
        match floatsOf (t :: rest) with
        | some qs => some (qs.map Value.num)
        | none => some ((t :: rest).map Value.str)

/-- An in-progress dataset: the dict built between two boundaries.  `cols` is
the `"data"` key (absent until a column-header line is merged). -/
structure InDS where
  cols : Option (List ColRef) := none
  frequency : Option FreqV := none
  position : Option PosV := none
  named : List (String × String) := []
  descr : Option String := none
deriving DecidableEq, Repr

/-- A sealed (deep-copied) column: descriptor plus value snapshot. -/
structure SCol where
  desc : ColDesc
  data : List Value
deriving DecidableEq, Repr

/-- A sealed dataset as it appears in `contents["data"]`. -/
structure DS where
  cols : Option (List SCol) := none
  frequency : Option FreqV := none
  position : Option PosV := none
  named : List (String × String) := []
  descr : Option String := none
deriving DecidableEq, Repr

/-- A top-level `contents` value: bare string or accumulated list. -/
inductive TopVal where
  | vstr (s : String)
  | vlist (l : List String)
deriving DecidableEq, Repr

/-- The whole mutable state of one `FFEReader.read` call, plus the
class-level table state. -/
structure RState where
  tbl : Tbl
  data : List DS
  source : TopVal
  date : Option TopVal
  newDsOnNextHeader : Bool
  dataset : Option InDS
deriving DecidableEq, Repr

/-- The fresh default dictionary for an unmatched column label. -/
def unknownDesc (hdr : String) : ColDesc :=
  { quantity := "unknown", description := some hdr }

/-- Descriptor of map entry `i` (the non-`data` fields never change). -/
def colDescOf (i : ℕ) : ColDesc :=
  (colHdrMap.getD i (Pat.startsW "", unknownDesc "")).2

/-- Current `"data"` list of map entry `i` (empty when the key is absent). -/
def tblData (tbl : Tbl) (i : ℕ) : List Value :=
  (tbl.getD i none).getD []

/-- Value snapshot of a column reference (what `copy.deepcopy` records). -/
def materializeCol (tbl : Tbl) : ColRef → SCol
  | .shared i => ⟨colDescOf i, tblData tbl i⟩
  | .unique h d => ⟨unknownDesc h, d⟩

/-- Model of `copy.deepcopy(dataset)` at a seal point. -/
def sealDS (tbl : Tbl) (ds : InDS) : DS :=
  { cols := ds.cols.map (List.map (materializeCol tbl)),
    frequency := ds.frequency, position := ds.position,
    named := ds.named, descr := ds.descr }

/-- Python-dict update on the name-keyed entries (overwrite in place or
append, preserving insertion order). -/
def setNamed (l : List (String × String)) (k v : String) : List (String × String) :=
  if l.any (fun p => p.1 == k) then l.map (fun p => if p.1 == k then (k, v) else p)
  else l ++ [(k, v)]

/-- The top-level merge of `read`: try `contents[k].append(v)` and on failure
(appending to a bare string) overwrite; a fresh key stores the bare value. -/
def mergeTop (cur : Option TopVal) (v : String) : TopVal :=
  match cur with
  | none => .vstr v
  | some (.vlist l) => .vlist (l ++ [v])
  | some (.vstr _) => .vstr v

/-- Merge the header line's assignment into top-level or dataset scope
(`read`, lines 143–159).  A dataset-level key with `dataset is None` would be
a `None` subscript assignment, hence `TypeError` (unreachable from the
initial state, but part of the code's semantics). -/
def mergeAssign (st : RState) : Option Assign → Except PyErr RState
  | none => .ok st
  | some (.aSource v) => .ok { st with source := mergeTop (some st.source) v }
  | some (.aDate v) => .ok { st with date := some (mergeTop st.date v) }
  | some (.aData cols) =>
    match st.dataset with
    | none => .error .typeError
    | some ds => .ok { st with dataset := some { ds with cols := some cols } }
  | some (.aFreq f) =>
    match st.dataset with
    | none => .error .typeError
    | some ds => .ok { st with dataset := some { ds with frequency := some f } }
  | some (.aPos p) =>
    match st.dataset with
    | none => .error .typeError
    | some ds => .ok { st with dataset := some { ds with position := some p } }
  | some (.aNamed k v) =>
    match st.dataset with
    | none => .error .typeError
    | some ds => .ok { st with dataset := some { ds with named := setNamed ds.named k v } }
  | some (.aDescr v) =>
    match st.dataset with
    | none => .error .typeError
    | some ds => .ok { st with dataset := some { ds with descr := some v } }

/-- Boundary logic at a header line (`read`, lines 130–138): with the flag
armed, seal the in-progress dataset (if any) and prime an empty one. -/
def sealIfNew (st : RState) : RState :=
  if st.newDsOnNextHeader then
    { st with
      data := st.data ++ (match st.dataset with
        | some ds => [sealDS st.tbl ds]
        | none => []),
      dataset := some {},
      newDsOnNextHeader := false }
  else st

/-- Append one accepted row value-by-value (`read`, lines 172–173): a shared
column appends into the aliased map entry, a unique column into its own list. -/
def appendRow (tbl : Tbl) : List ColRef → List Value → Tbl × List ColRef
  | [], _ => (tbl, [])
  | cs, [] => (tbl, cs)
  | .shared i :: cs, v :: vs =>
    let t2 := appendRow (tbl.set i (some (tblData tbl i ++ [v]))) cs vs
    (t2.1, .shared i :: t2.2)
  | .unique h d :: cs, v :: vs =>
    let t2 := appendRow tbl cs vs
    (t2.1, .unique h (d ++ [v]) :: t2.2)

/-- Header-line branch of the `read` loop. -/
def stepHeader (st : RState) (l : String) : Except PyErr RState :=
  let st1 := sealIfNew st
  match parseHeader st1.tbl l with
  | .error e => .error e
  | .ok ta => mergeAssign { st1 with tbl := ta.1 } ta.2

/-- Data-line branch of the `read` loop: a parsed row first arms the boundary
flag, then requires `dataset["data"]` to exist (`TypeError` on `None`,
`KeyError` on a missing key) and appends only when the token count matches
the column count. -/
def stepData (st : RState) (l : String) : Except PyErr RState :=
  match parseDataLine l with
  | none => .ok st
  | some row =>
    let st1 := { st with newDsOnNextHeader := true }
    match st1.dataset with
    | none => .error .typeError
    | some ds =>
      match ds.cols with
      | none => .error .keyError
      | some cols =>
        if cols.length == row.length then
          let t2 := appendRow st1.tbl cols row
          .ok { st1 with tbl := t2.1, dataset := some { ds with cols := some t2.2 } }
        else .ok st1

/-- One iteration of the `for l in fp.readlines()` loop of `FFEReader.read`. -/
def step (st : RState) (rawLine : String) : Except PyErr RState :=
  let l := pyStrip rawLine
  if isHeader l then stepHeader st l else stepData st l

/-- The state at the start of `FFEReader.read`:
`contents = {"data": [], "source": ["FEKO"]}`, the boundary flag armed, no
dataset, and the (class-level) map entries without `"data"` keys. -/
def initState : RState :=
  { tbl := initTbl, data := [], source := .vlist ["FEKO"], date := none,
    newDsOnNextHeader := true, dataset := none }

/-- Run the `read` loop over the remaining lines; an uncaught exception
aborts the whole call. -/
def runLines (st : RState) : List String → Except PyErr RState
  | [] => .ok st
  | l :: ls =>
    match step st l with
    | .error e => .error e
    | .ok st2 => runLines st2 ls

/-- The returned `contents` dictionary. -/
structure Contents where
  data : List DS
  source : TopVal
  date : Option TopVal
deriving DecidableEq, Repr

/-- End-of-file epilogue of `read` (lines 175–179): seal the last dataset. -/
def finalize (st : RState) : Contents :=
  { data := st.data ++ (match st.dataset with
      | some ds => [sealDS st.tbl ds]
      | none => []),
    source := st.source, date := st.date }

/-- Model of `FFEReader.read`, over the file's lines. -/
def read (lines : List String) : Except PyErr Contents :=
  (runLines initState lines).map finalize

end Feko

deriving instance DecidableEq for Except

namespace Feko

/-- Concrete state for exercising the boundary law: the flag is armed and an
empty dataset is in progress. -/
def c3Pre : RState := { initState with dataset := some {} }

/-- The state after feeding `#x` to `c3Pre`: the empty dataset is sealed and
a fresh dataset carrying the free-text description begins. -/
def c3Post : RState :=
  { initState with
    data := [{}],
    newDsOnNextHeader := false,
    dataset := some { descr := some "x" } }

/-- Concrete state for exercising layout replacement: mid-dataset (flag
disarmed) with a single theta column established. -/
def c7Pre : RState :=
  { initState with
    newDsOnNextHeader := false,
    dataset := some { cols := some [ColRef.shared 0] },
    tbl := initTbl.set 0 (some []) }

/-- The state after feeding the second column-header line `#"Phi" "Theta"`
to `c7Pre`: the layout is replaced by the new two-column one. -/
def c7Post : RState :=
  { c7Pre with
    tbl := ((initTbl.set 0 (some [])).set 1 (some [])).set 0 (some []),
    dataset := some { cols := some [ColRef.shared 1, ColRef.shared 0] } }

/-- Concrete state for exercising date accumulation: mid-dataset with a bare
date string already stored at top level. -/
def c8Pre : RState :=
  { initState with
    newDsOnNextHeader := false,
    dataset := some {},
    date := some (.vstr "2020-01-01") }

/-- The state after feeding a second `#Date:` header to `c8Pre`: the bare
string is overwritten, not extended. -/
def c8Post : RState := { c8Pre with date := some (.vstr "2021-02-02") }

/-- Fields of `sealIfNew` that never change. -/
theorem sealIfNew_source (st : RState) : (sealIfNew st).source = st.source := by
  unfold sealIfNew; split <;> rfl

/-- The date field survives the boundary logic unchanged. -/
theorem sealIfNew_date (st : RState) : (sealIfNew st).date = st.date := by
  unfold sealIfNew; split <;> rfl

/-- The table state survives the boundary logic unchanged. -/
theorem sealIfNew_tbl (st : RState) : (sealIfNew st).tbl = st.tbl := by
  unfold sealIfNew; split <;> rfl

/-- After the boundary logic the flag is always disarmed. -/
theorem sealIfNew_newDs (st : RState) : (sealIfNew st).newDsOnNextHeader = false := by
  unfold sealIfNew; split
  · rfl
  · rename_i hc
    simp only [Bool.not_eq_true] at hc
    exact hc

/-- With the flag disarmed the boundary logic is the identity. -/
theorem sealIfNew_of_false (st : RState) (h : st.newDsOnNextHeader = false) :
    sealIfNew st = st := by
  unfold sealIfNew
  rw [h]
  rfl

/-- With the flag armed and a dataset in progress, the boundary logic seals
that dataset and primes an empty one. -/
theorem sealIfNew_of_true (st : RState) (h : st.newDsOnNextHeader = true)
    (ds : InDS) (hd : st.dataset = some ds) :
    (sealIfNew st).data = st.data ++ [sealDS st.tbl ds] ∧
      (sealIfNew st).dataset = some {} := by
  unfold sealIfNew
  rw [h, hd]
  exact ⟨rfl, rfl⟩

/-- What an accepted `mergeAssign` can and cannot change: the sealed-dataset
list, the boundary flag and the presence of an in-progress dataset are
untouched, and the source is either untouched or merged with one value. -/
theorem mergeAssign_inv (st st2 : RState) (a : Option Assign)
    (h : mergeAssign st a = .ok st2) :
    st2.data = st.data ∧ st2.newDsOnNextHeader = st.newDsOnNextHeader ∧
      st2.dataset.isSome = st.dataset.isSome ∧
      (st2.source = st.source ∨ ∃ v, st2.source = mergeTop (some st.source) v) := by
  cases a with
  | none =>
    simp only [mergeAssign, Except.ok.injEq] at h
    subst h
    exact ⟨rfl, rfl, rfl, Or.inl rfl⟩
  | some a =>
    cases a with
    | aSource v =>
      simp only [mergeAssign, Except.ok.injEq] at h
      subst h
      exact ⟨rfl, rfl, rfl, Or.inr ⟨v, rfl⟩⟩
    | aDate v =>
      simp only [mergeAssign, Except.ok.injEq] at h
      subst h
      exact ⟨rfl, rfl, rfl, Or.inl rfl⟩
    | aData cols =>
      cases hd : st.dataset with
      | none => simp [mergeAssign, hd] at h
      | some ds =>
        simp only [mergeAssign, hd, Except.ok.injEq] at h
        subst h
        exact ⟨rfl, rfl, by simp [hd], Or.inl rfl⟩
    | aFreq f =>
      cases hd : st.dataset with
      | none => simp [mergeAssign, hd] at h
      | some ds =>
        simp only [mergeAssign, hd, Except.ok.injEq] at h
        subst h
        exact ⟨rfl, rfl, by simp [hd], Or.inl rfl⟩
    | aPos p =>
      cases hd : st.dataset with
      | none => simp [mergeAssign, hd] at h
      | some ds =>
        simp only [mergeAssign, hd, Except.ok.injEq] at h
        subst h
        exact ⟨rfl, rfl, by simp [hd], Or.inl rfl⟩
    | aNamed k v =>
      cases hd : st.dataset with
      | none => simp [mergeAssign, hd] at h
      | some ds =>
        simp only [mergeAssign, hd, Except.ok.injEq] at h
        subst h
        exact ⟨rfl, rfl, by simp [hd], Or.inl rfl⟩
    | aDescr v =>
      cases hd : st.dataset with
      | none => simp [mergeAssign, hd] at h
      | some ds =>
        simp only [mergeAssign, hd, Except.ok.injEq] at h
        subst h
        exact ⟨rfl, rfl, by simp [hd], Or.inl rfl⟩

/-- Error results propagate: an erroring header parse makes the header step
error, for any state. -/
theorem stepHeader_error (st : RState) (l : String) (e : PyErr)
    (hf : ∀ tbl : Tbl, parseHeader tbl l = .error e) :
    stepHeader st l = .error e := by
  simp only [stepHeader]
  rw [hf (sealIfNew st).tbl]

/-- Running `runLines` distributes over list append via the error monad. -/
theorem runLines_append (st : RState) (as bs : List String) :
    runLines st (as ++ bs) =
      match runLines st as with
      | .error e => .error e
      | .ok st2 => runLines st2 bs := by
  induction as generalizing st with
  | nil => simp [runLines]
  | cons l ls ih =>
    simp only [List.cons_append, runLines]
    cases h : step st l with
    | error e => simp [h]
    | ok st2 => simp [h, ih]

end Feko

namespace Feko

/-- Claim C3: the dataset boundary law of `FFEReader.read`.  On a header
line, the boundary flag ends disarmed; if the flag was disarmed (the previous
line was also a header, or only blank lines intervened) no dataset is sealed,
so consecutive header lines contribute to the same dataset; if the flag was
armed (a data row had been processed) the in-progress dataset is sealed into
the document and a new one begins.  On a data line, any parsed row arms the
flag, and a blank line changes nothing. -/
theorem c3_boundary (st : RState) (l : String) (st2 : RState)
    (h : step st l = .ok st2) :
    (isHeader (pyStrip l) = true →
      st2.newDsOnNextHeader = false ∧
      (st.newDsOnNextHeader = false → st2.data = st.data) ∧
      (st.newDsOnNextHeader = true → ∀ ds, st.dataset = some ds →
        st2.data = st.data ++ [sealDS st.tbl ds] ∧ st2.dataset.isSome = true)) ∧
    (isHeader (pyStrip l) = false →
      (∀ row, parseDataLine (pyStrip l) = some row → st2.newDsOnNextHeader = true) ∧
      (parseDataLine (pyStrip l) = none → st2 = st)) := by
  simp only [step] at h
  constructor
  · intro hh
    rw [if_pos hh] at h
    simp only [stepHeader] at h
    cases hp : parseHeader (sealIfNew st).tbl (pyStrip l) with
    | error e =>
      rw [hp] at h
      exact Except.noConfusion h
    | ok ta =>
      rw [hp] at h
      obtain ⟨hdata, hnds, hsome, _⟩ := mergeAssign_inv _ _ _ h
      refine ⟨?_, ?_, ?_⟩
      · rw [hnds]
        exact sealIfNew_newDs st
      · intro hf
        rw [hdata]
        show (sealIfNew st).data = st.data
        rw [sealIfNew_of_false st hf]
      · intro ht ds hds
        constructor
        · rw [hdata]
          show (sealIfNew st).data = _
          exact (sealIfNew_of_true st ht ds hds).1
        · rw [hsome]
          show (sealIfNew st).dataset.isSome = true
          rw [(sealIfNew_of_true st ht ds hds).2]
          rfl
  · intro hh
    rw [if_neg (by simp [hh])] at h
    cases hp : parseDataLine (pyStrip l) with
    | none =>
      refine ⟨?_, ?_⟩
      · intro row hrow
        exact Option.noConfusion hrow
      · intro _
        simp only [stepData, hp, Except.ok.injEq] at h
        exact h.symm
    | some row =>
      refine ⟨?_, ?_⟩
      · intro row2 _
        cases hds : st.dataset with
        | none => simp [stepData, hp, hds] at h
        | some ds =>
          cases hc : ds.cols with
          | none => simp [stepData, hp, hds, hc] at h
          | some cols =>
            simp only [stepData, hp, hds, hc] at h
            by_cases hlen : (cols.length == row.length) = true
            · rw [if_pos hlen] at h
              rw [← Except.ok.inj h]
            · rw [if_neg hlen] at h
              rw [← Except.ok.inj h]
      · intro hn
        exact Option.noConfusion hn

/-- Witness for C3 at a concrete state and line: feeding the header `#x` to
a state with an armed flag and an in-progress dataset disarms the flag and
seals that dataset into the document. -/
theorem c3_boundary_witness :
    c3Post.newDsOnNextHeader = false ∧
      c3Post.data = c3Pre.data ++ [sealDS c3Pre.tbl {}] := by
  have h := c3_boundary c3Pre "#x" c3Post (by decide)
  have hh := h.1 (by decide)
  exact ⟨hh.1, (hh.2.2 rfl {} rfl).1⟩

/-- Claim C2: a header line whose parse raises (a non-numeric `Frequency`
value, or an `Origin` value with too few numeric components) aborts the
whole `read` call with an uncaught exception: no document is returned for
any file containing such a line. -/
theorem c2_parse_error_aborts (pre : List String) (l : String) (post : List String)
    (e : PyErr)
    (hh : isHeader (pyStrip l) = true)
    (hf : ∀ tbl : Tbl, parseHeader tbl (pyStrip l) = .error e) :
    ∃ e2, read (pre ++ l :: post) = .error e2 := by
  unfold read
  rw [runLines_append]
  cases hr : runLines initState pre with
  | error e0 => exact ⟨e0, rfl⟩
  | ok st =>
    refine ⟨e, ?_⟩
    have hstep : step st l = .error e := by
      simp only [step]
      rw [if_pos hh]
      exact stepHeader_error st (pyStrip l) e hf
    show ((match step st l with
      | .error e3 => .error e3
      | .ok st2 => runLines st2 post) : Except PyErr RState).map finalize = .error e
    rw [hstep]
    rfl

/-- Witness for C2: the single-line file `#Frequency: abc` (a non-numeric
frequency) makes `read` fail with an error. -/
theorem c2_parse_error_aborts_witness :
    ∃ e2, read ["#Frequency: abc"] = .error e2 :=
  c2_parse_error_aborts [] "#Frequency: abc" [] .valueError (by decide)
    (fun _ => rfl)

end Feko

namespace Feko

/-- A successful step changes the top-level source only by merging one value
into it. -/
theorem step_source (st st2 : RState) (l : String) (h : step st l = .ok st2) :
    st2.source = st.source ∨ ∃ v, st2.source = mergeTop (some st.source) v := by
  simp only [step] at h
  by_cases hh : isHeader (pyStrip l) = true
  · rw [if_pos hh] at h
    simp only [stepHeader] at h
    cases hp : parseHeader (sealIfNew st).tbl (pyStrip l) with
    | error e =>
      rw [hp] at h
      exact Except.noConfusion h
    | ok ta =>
      rw [hp] at h
      obtain ⟨_, _, _, hsrc⟩ := mergeAssign_inv _ _ _ h
      have he : ({ sealIfNew st with tbl := ta.1 } : RState).source = st.source :=
        sealIfNew_source st
      rw [he] at hsrc
      exact hsrc
  · rw [if_neg hh] at h
    cases hp : parseDataLine (pyStrip l) with
    | none =>
      simp only [stepData, hp, Except.ok.injEq] at h
      left
      rw [← h]
    | some row =>
      cases hds : st.dataset with
      | none => simp [stepData, hp, hds] at h
      | some ds =>
        cases hc : ds.cols with
        | none => simp [stepData, hp, hds, hc] at h
        | some cols =>
          simp only [stepData, hp, hds, hc] at h
          by_cases hlen : (cols.length == row.length) = true
          · rw [if_pos hlen] at h
            left
            rw [← Except.ok.inj h]
          · rw [if_neg hlen] at h
            left
            rw [← Except.ok.inj h]

/-- Claim C9: a parsed (non-blank) data line arriving while the in-progress
dataset has no established column layout makes `read` raise: `TypeError`
when no dataset exists at all (no header has been seen), `KeyError` when the
dataset exists but no column-header line established its `"data"` key.  No
document is returned and the row is not dropped. -/
theorem c9_missing_layout_raises (pre : List String) (l : String) (post : List String)
    (st : RState) (row : List Value)
    (hpre : runLines initState pre = .ok st)
    (hnh : isHeader (pyStrip l) = false)
    (hrow : parseDataLine (pyStrip l) = some row)
    (hlay : (match st.dataset with
      | none => True
      | some ds => ds.cols = none)) :
    read (pre ++ l :: post) = .error .typeError ∨
      read (pre ++ l :: post) = .error .keyError := by
  unfold read
  rw [runLines_append, hpre]
  have hstep : step st l = .error .typeError ∨ step st l = .error .keyError := by
    simp only [step]
    rw [if_neg (by simp [hnh])]
    cases hds : st.dataset with
    | none =>
      left
      simp [stepData, hrow, hds]
    | some ds =>
      right
      have hlay2 : ds.cols = none := by
        rw [hds] at hlay
        exact hlay
      simp [stepData, hrow, hds, hlay2]
  cases hstep with
  | inl h1 =>
    left
    show (runLines st (l :: post)).map finalize = .error .typeError
    simp only [runLines, h1]
    rfl
  | inr h1 =>
    right
    show (runLines st (l :: post)).map finalize = .error .keyError
    simp only [runLines, h1]
    rfl

/-- Witness for C9: the one-line file whose only line is the data row `1.0`
(no header at all) makes `read` raise rather than return a document. -/
theorem c9_missing_layout_raises_witness :
    read ["1.0"] = .error .typeError ∨ read ["1.0"] = .error .keyError :=
  c9_missing_layout_raises [] "1.0" [] initState [Value.num 1] rfl (by decide)
    (by decide) trivial

/-- Claim C10: the top-level source is seeded with `"FEKO"` before any line
is read and only ever appended to, so any returned document has a source
list whose head is `"FEKO"`; and the empty input yields the document with an
empty dataset list, exactly the seeded top level. -/
theorem c10_source_seeded :
    (∀ lines doc, read lines = .ok doc →
      ∃ rest, doc.source = TopVal.vlist ("FEKO" :: rest)) ∧
    read [] = .ok { data := [], source := TopVal.vlist ["FEKO"], date := none } := by
  constructor
  · have key : ∀ lines st st2, runLines st lines = .ok st2 →
        ∀ rest0, st.source = .vlist ("FEKO" :: rest0) →
        ∃ rest, st2.source = .vlist ("FEKO" :: rest) := by
      intro lines
      induction lines with
      | nil =>
        intro st st2 h rest0 hs
        have he := Except.ok.inj h
        subst he
        exact ⟨rest0, hs⟩
      | cons l ls ih =>
        intro st st2 h rest0 hs
        simp only [runLines] at h
        cases hstep : step st l with
        | error e =>
          rw [hstep] at h
          exact Except.noConfusion h
        | ok stm =>
          rw [hstep] at h
          rcases step_source st stm l hstep with h1 | ⟨v, h1⟩
          · exact ih stm st2 h rest0 (h1.trans hs)
          · refine ih stm st2 h (rest0 ++ [v]) ?_
            rw [h1, hs]
            rfl
    intro lines doc hread
    unfold read at hread
    cases hr : runLines initState lines with
    | error e =>
      rw [hr] at hread
      exact Except.noConfusion hread
    | ok st =>
      rw [hr] at hread
      simp only [Except.map, Except.ok.injEq] at hread
      obtain ⟨rest, hsrc⟩ := key lines initState st hr [] rfl
      rw [← hread]
      exact ⟨rest, hsrc⟩
  · rfl

/-- Witness for C10: applied to the empty input, whose returned document is
computed by the second conjunct. -/
theorem c10_source_seeded_witness :
    ∃ rest, ({ data := [], source := TopVal.vlist ["FEKO"], date := none } : Contents).source
      = TopVal.vlist ("FEKO" :: rest) :=
  c10_source_seeded.1 [] _ c10_source_seeded.2

end Feko

namespace Feko

/-- Dropping a prefix with `dropWhile` either empties the list or exposes a
head that fails the predicate. -/
theorem dropWhile_head_not (p : Char → Bool) (l : List Char) :
    l.dropWhile p = [] ∨ ∃ c t, l.dropWhile p = c :: t ∧ p c = false := by
  induction l with
  | nil => left; rfl
  | cons a t ih =>
    by_cases h : p a = true
    · rw [List.dropWhile_cons, if_pos h]
      exact ih
    · right
      exact ⟨a, t, by rw [List.dropWhile_cons, if_neg h], by simp [h]⟩

/-- A stripped character list is empty or starts with a non-whitespace
character. -/
theorem stripChars_head (l : List Char) :
    stripChars l = [] ∨ ∃ c t, stripChars l = c :: t ∧ isWS c = false := by
  rcases dropWhile_head_not isWS l with h0 | ⟨c, t, hct, hc⟩
  · left
    simp [stripChars, h0]
  · set m := l.dropWhile isWS with hm
    have hmem : c ∈ m.reverse := by
      rw [hct]
      simp
    have hne : m.reverse.dropWhile isWS ≠ [] := by
      intro hnil
      rw [List.dropWhile_eq_nil_iff] at hnil
      rw [hnil c hmem] at hc
      exact Bool.noConfusion hc
    have hsuf : m.reverse.dropWhile isWS <:+ m.reverse := List.dropWhile_suffix isWS
    have hpre : (m.reverse.dropWhile isWS).reverse <+: m := by
      have := List.reverse_prefix.mpr hsuf
      rwa [List.reverse_reverse] at this
    right
    cases hrev : (m.reverse.dropWhile isWS).reverse with
    | nil =>
      exact absurd (by simpa using congrArg List.reverse hrev) hne
    | cons d ds =>
      refine ⟨d, ds, ?_, ?_⟩
      · show ((l.dropWhile isWS).reverse.dropWhile isWS).reverse = d :: ds
        rw [← hm]
        exact hrev
      · rw [hrev, hct] at hpre
        obtain ⟨u, hu⟩ := hpre
        rw [List.cons_append] at hu
        rw [(List.cons.inj hu).1]
        exact hc

/-- The token being accumulated is a prefix of the next token `splitRunsGo`
emits; in particular that token is produced and extends it. -/
theorem splitRunsGo_some_head (p : Char → Bool) (cs : List Char) :
    ∀ cur, ∃ t ts, splitRunsGo p (some cur) cs = t :: ts ∧ cur.reverse <+: t := by
  induction cs with
  | nil => exact fun cur => ⟨cur.reverse, [], rfl, List.prefix_refl _⟩
  | cons c cs ih =>
    intro cur
    by_cases h : p c = true
    · refine ⟨cur.reverse, splitRunsGo p none cs, ?_, List.prefix_refl _⟩
      simp [splitRunsGo, h]
    · obtain ⟨t, ts, he, hpre⟩ := ih (c :: cur)
      refine ⟨t, ts, ?_, ?_⟩
      · rw [show splitRunsGo p (some cur) (c :: cs) = splitRunsGo p (some (c :: cur)) cs by
          simp [splitRunsGo, h]]
        exact he
      · refine List.IsPrefix.trans ?_ hpre
        rw [List.reverse_cons]
        exact List.prefix_append _ _

/-- Unfolding of the data-line parser on a non-blank line whose first token
is non-empty. -/
theorem parseDataLine_eq (line : String) (hb : line.data.all isWS = false)
    (tok : String) (toks : List String) (hs : splitWS line = tok :: toks)
    (ht : tok.data ≠ []) :
    parseDataLine line =
      (match floatsOf (tok :: toks) with
        | some qs => some (qs.map Value.num)
        | none => some ((tok :: toks).map Value.str)) := by
  unfold parseDataLine
  rw [if_neg (by simp [hb]), hs]
  have hemp : tok.data.isEmpty = false := by
    cases hd : tok.data with
    | nil => exact absurd hd ht
    | cons a l => rfl
  simp [hemp]

/-- When every token parses as a float, `floatsOf` returns them all. -/
theorem floatsOf_of_all (l : List String)
    (h : (l.all fun tok => (pyFloat tok).isSome) = true) :
    floatsOf l = some (l.map fun tok => (pyFloat tok).getD 0) := by
  induction l with
  | nil => rfl
  | cons s rest ih =>
    simp only [List.all_cons, Bool.and_eq_true] at h
    obtain ⟨h1, h2⟩ := h
    cases hf : pyFloat s with
    | none =>
      rw [hf] at h1
      exact Bool.noConfusion h1
    | some q =>
      simp [floatsOf, hf, ih h2]

/-- When some token fails to parse as a float, `floatsOf` fails wholesale. -/
theorem floatsOf_of_fail (l : List String)
    (h : (l.all fun tok => (pyFloat tok).isSome) = false) :
    floatsOf l = none := by
  induction l with
  | nil => simp at h
  | cons s rest ih =>
    cases hf : pyFloat s with
    | none => simp [floatsOf, hf]
    | some q =>
      rw [List.all_cons, hf] at h
      simp only [Option.isSome_some, Bool.true_and] at h
      simp [floatsOf, hf, ih h]

/-- Claim C5: behaviour of `FFEReader._parse_data_line` on any line as
handed to it by `read` (stripped of surrounding whitespace).  A blank line
yields no row; otherwise the line is split on whitespace runs and the parser
returns floats exactly when every token parses as a float, and the entire
row as raw string tokens when any single token fails — never a mixed row. -/
theorem c5_data_line (s : String) :
    (pyStrip s = "" → parseDataLine (pyStrip s) = none) ∧
    (pyStrip s ≠ "" →
      (((splitWS (pyStrip s)).all fun tok => (pyFloat tok).isSome) = true →
        parseDataLine (pyStrip s) =
          some ((splitWS (pyStrip s)).map fun tok => Value.num ((pyFloat tok).getD 0))) ∧
      (((splitWS (pyStrip s)).all fun tok => (pyFloat tok).isSome) = false →
        parseDataLine (pyStrip s) = some ((splitWS (pyStrip s)).map Value.str))) := by
  constructor
  · intro he
    rw [he]
    rfl
  · intro hne
    rcases stripChars_head s.data with h0 | ⟨c, t, hct, hc⟩
    · exact absurd (by unfold pyStrip; rw [h0]) hne
    · have hdata : (pyStrip s).data = c :: t := hct
      have hblank : ((pyStrip s).data.all isWS) = false := by
        rw [hdata]
        simp [hc]
      have hsr : ∃ t0 ts, splitRuns isWS (c :: t) = t0 :: ts ∧ t0 ≠ [] := by
        obtain ⟨t0, ts, he, hpre⟩ := splitRunsGo_some_head isWS t [c]
        refine ⟨t0, ts, ?_, ?_⟩
        · unfold splitRuns
          rw [show splitRunsGo isWS (some []) (c :: t) = splitRunsGo isWS (some [c]) t by
            simp [splitRunsGo, hc]]
          exact he
        · intro hnil
          rw [hnil] at hpre
          simp at hpre
      obtain ⟨t0, ts, hsr, ht0⟩ := hsr
      have hws : splitWS (pyStrip s) =
          (⟨t0⟩ : String) :: ts.map (fun l => (⟨l⟩ : String)) := by
        unfold splitWS
        rw [hdata, hsr]
        rfl
      have hkey := parseDataLine_eq (pyStrip s) hblank ⟨t0⟩
        (ts.map (fun l => (⟨l⟩ : String))) hws ht0
      constructor
      · intro hall
        rw [hws] at hall
        rw [hkey, floatsOf_of_all _ hall, hws]
        simp
      · intro hfail
        rw [hws] at hfail
        rw [hkey, floatsOf_of_fail _ hfail, hws]

/-- Witness for C5 on three concrete lines: an all-numeric row, a row with
one non-numeric token (whole row as strings), and a whitespace-only line. -/
theorem c5_data_line_witness :
    parseDataLine (pyStrip " 1.0 2.5 ") =
      some ((splitWS (pyStrip " 1.0 2.5 ")).map fun tok => Value.num ((pyFloat tok).getD 0)) ∧
    parseDataLine (pyStrip "x 2.5") = some ((splitWS (pyStrip "x 2.5")).map Value.str) ∧
    parseDataLine (pyStrip "   ") = none :=
  ⟨((c5_data_line " 1.0 2.5 ").2 (by decide)).1 (by decide),
   ((c5_data_line "x 2.5").2 (by decide)).2 (by decide),
   (c5_data_line "   ").1 (by decide)⟩

end Feko

namespace Feko

/-- Setting entry `i` to an empty `"data"` list leaves every entry whose
`"data"` was already empty (or absent) empty. -/
theorem tblData_set_or (tbl : Tbl) (i j : ℕ) (v : List Value) :
    tblData (tbl.set i (some v)) j = tblData tbl j ∨
      tblData (tbl.set i (some v)) j = v := by
  induction tbl generalizing i j with
  | nil => left; rfl
  | cons a t ih =>
    cases i with
    | zero =>
      cases j with
      | zero => right; rfl
      | succ j2 => left; rfl
    | succ i2 =>
      cases j with
      | zero => left; rfl
      | succ j2 => exact ih i2 j2

/-- Resetting entry `i` makes its `"data"` list empty (a no-op set out of
range leaves the absent key, which also reads as empty). -/
theorem tblData_set_self_nil (tbl : Tbl) (i : ℕ) :
    tblData (tbl.set i (some [])) i = [] := by
  induction tbl generalizing i with
  | nil => rfl
  | cons a t ih =>
    cases i with
    | zero => rfl
    | succ i2 => exact ih i2

/-- An empty entry stays empty under a reset of any entry. -/
theorem tblData_set_nil (tbl : Tbl) (i j : ℕ) (h : tblData tbl j = []) :
    tblData (tbl.set i (some [])) j = [] := by
  rcases tblData_set_or tbl i j [] with h2 | h2
  · rw [h2, h]
  · rw [h2]

/-- Processing column-header tokens preserves emptiness of table entries
(every mutation is a reset to `[]`). -/
theorem parseColumnHeaderGo_pres (hdrs : List String) (tbl : Tbl) (j : ℕ)
    (h : tblData tbl j = []) :
    tblData (parseColumnHeaderGo tbl hdrs).2 j = [] := by
  induction hdrs generalizing tbl with
  | nil => exact h
  | cons s hs ih =>
    cases hl : colHdrLookup s with
    | none =>
      simp only [parseColumnHeaderGo, hl]
      exact ih tbl h
    | some i =>
      simp only [parseColumnHeaderGo, hl]
      exact ih (tbl.set i (some [])) (tblData_set_nil tbl i j h)

/-- Every column produced by a column-header line has an empty value
sequence under the table state the line leaves behind. -/
theorem parseColumnHeaderGo_empty (hdrs : List String) (tbl : Tbl) :
    ∀ c ∈ (parseColumnHeaderGo tbl hdrs).1,
      (materializeCol (parseColumnHeaderGo tbl hdrs).2 c).data = [] := by
  induction hdrs generalizing tbl with
  | nil =>
    intro c hc
    exact absurd hc (List.not_mem_nil c)
  | cons s hs ih =>
    intro c hc
    cases hl : colHdrLookup s with
    | some i =>
      simp only [parseColumnHeaderGo, hl] at hc ⊢
      rcases List.mem_cons.mp hc with rfl | hc2
      · have hset : tblData (tbl.set i (some [])) i = [] := tblData_set_self_nil tbl i
        have hres := parseColumnHeaderGo_pres hs (tbl.set i (some [])) i hset
        simp only [materializeCol]
        exact hres
      · exact ih (tbl.set i (some [])) c hc2
    | none =>
      simp only [parseColumnHeaderGo, hl] at hc ⊢
      rcases List.mem_cons.mp hc with rfl | hc2
      · rfl
      · exact ih tbl c hc2

/-- Wrapper of `parseColumnHeaderGo_empty` for whole column-header lines. -/
theorem parseColumnHeader_empty (tbl : Tbl) (line : String) :
    ∀ c ∈ (parseColumnHeader tbl line).1,
      (materializeCol (parseColumnHeader tbl line).2 c).data = [] := by
  unfold parseColumnHeader
  exact fun c hc => parseColumnHeaderGo_empty _ tbl c hc

end Feko

namespace Feko

/-- Claim C7 (amended): a column-header line arriving mid-dataset (boundary
flag disarmed, a dataset in progress) does not seal anything, but it
REPLACES the dataset's established column layout with the new line's
freshly-made columns, every one of which has an empty value sequence; the
other dataset fields survive.  (No accumulated values can be lost at such a
line: any parsed data row arms the boundary flag, so a second column-header
line of the same dataset can only occur before any row was accepted.) -/
theorem c7_amended (st st2 : RState) (l : String) (ds : InDS) (rest : List Char)
    (hh : isHeader (pyStrip l) = true)
    (hflag : st.newDsOnNextHeader = false)
    (hds : st.dataset = some ds)
    (hq : (stripChars (pyStrip l).data).dropWhile (fun c => c == '#' || c == '*' || isWS c)
        = '"' :: rest)
    (hs : step st l = .ok st2) :
    ∃ cols, st2.dataset = some { ds with cols := some cols } ∧
      ∀ c ∈ cols, (materializeCol st2.tbl c).data = [] := by
  simp only [step] at hs
  rw [if_pos hh] at hs
  simp only [stepHeader, sealIfNew_of_false st hflag] at hs
  have hph : parseHeader st.tbl (pyStrip l) =
      .ok ((parseColumnHeader st.tbl ⟨'"' :: rest⟩).2,
        some (.aData (parseColumnHeader st.tbl ⟨'"' :: rest⟩).1)) := by
    simp only [parseHeader, hq]
  rw [hph] at hs
  simp only [mergeAssign, hds, Except.ok.injEq] at hs
  refine ⟨(parseColumnHeader st.tbl ⟨'"' :: rest⟩).1, ?_, ?_⟩
  · rw [← hs]
  · intro c hc
    rw [← hs]
    exact parseColumnHeader_empty st.tbl ⟨'"' :: rest⟩ c hc

/-- Witness for C7 (amended) at a concrete state: feeding the second
column-header line to a dataset whose layout is a single theta column
replaces the layout with the new two empty columns. -/
theorem c7_amended_witness :
    ∃ cols, c7Post.dataset =
        some { ({ cols := some [ColRef.shared 0] } : InDS) with cols := some cols } ∧
      ∀ c ∈ cols, (materializeCol c7Post.tbl c).data = [] :=
  c7_amended c7Pre c7Post "#\"Phi\" \"Theta\"" { cols := some [ColRef.shared 0] }
    ("Phi\" \"Theta\"".data) (by decide) rfl rfl (by decide) (by decide)

/-- Counterexample for C7 as stated: in the two-line file whose lines are
the column headers `#"Theta"` and then `#"Phi" "Theta"` (no data line
between them, hence one dataset), the sealed dataset's layout comes from
the SECOND column-header line (two columns, phi first), not from the first
one (a single theta column) as the claim requires. -/
theorem c7_counterexample :
    ((read ["#\"Theta\"", "#\"Phi\" \"Theta\""]).map
        (fun c => c.data.map (fun ds => (ds.cols.getD []).map (fun col => col.desc)))
      = .ok [[colDescOf 1, colDescOf 0]]) ∧
    [[colDescOf 1, colDescOf 0]] ≠ [[colDescOf 0]] :=
  ⟨by decide, by decide⟩

/-- Claim C1 (evaluation at the failing input): with the column-header line
`#"Theta" "Phi" "Theta"` two columns alias the same `_col_hdr_map` entry,
so the single accepted 3-token data row appends twice into the shared list:
the sealed dataset's column value-sequence lengths are 2, 1, 2 — neither
all equal nor equal to the single accepted row — refuting the invariant. -/
theorem c1_failing_eval :
    ((read ["#\"Theta\" \"Phi\" \"Theta\"", "1.0 2.0 3.0"]).map
        (fun c => c.data.map (fun ds => (ds.cols.getD []).map (fun col => col.data.length)))
      = .ok [[2, 1, 2]]) ∧
    ¬([2, 1, 2] = [1, 1, 1]) :=
  ⟨by decide, by decide⟩

/-- Claim C6 (evaluation at the failing input): the two columns of
`#"Theta" "Theta"` are one and the same `_col_hdr_map` entry, so after the
row `1.0 2.0` both report the value sequence `[1, 2]` (not independent
sequences `[1]` and `[2]`), and the class-level pattern table itself has
been mutated (entry 0 now carries a `"data"` list). -/
theorem c6_failing_eval :
    ((read ["#\"Theta\" \"Theta\"", "1.0 2.0"]).map
        (fun c => c.data.map (fun ds => (ds.cols.getD []).map (fun col => col.data)))
      = .ok [[[Value.num 1, Value.num 2], [Value.num 1, Value.num 2]]]) ∧
    (runLines initState ["#\"Theta\" \"Theta\"", "1.0 2.0"]).map (fun st => st.tbl) ≠
      .ok initTbl :=
  ⟨by decide, by decide⟩

/-- Counterexample for C4 as stated: on the spec's six-line input the
column-header line `"Theta" "Phi" "Re(Etheta)"` does not start with `#` or
`*`, so the classifier treats it as a data line; the row parses as strings,
and the length test `len(dataset["data"])` raises `KeyError` because no
column layout was ever established — `read` raises instead of returning the
claimed document. -/
theorem c4_counterexample :
    read ["** Exported by FEKO", "#Frequency: 1e9", "#Origin: (0,0,0)",
      "\"Theta\" \"Phi\" \"Re(Etheta)\"", "0.0 0.0 1.23", "1.0 0.0 1.45"] =
    .error .keyError := by decide

/-- Claim C4 (amended): with the column-header line carrying a header marker
(`#"Theta" "Phi" "Re(Etheta)"`), the six-line input produces exactly one
dataset with frequency value `1e9` Hz, position `(0,0,0)` meters, theta
column data `[0.0, 1.0]` and `Re(Etheta)` column data `[1.23, 1.45]`, each
of length 2. -/
theorem c4_amended :
    read ["** Exported by FEKO", "#Frequency: 1e9", "#Origin: (0,0,0)",
      "#\"Theta\" \"Phi\" \"Re(Etheta)\"", "0.0 0.0 1.23", "1.0 0.0 1.45"] =
    .ok { data := [
            { cols := some [
                { desc := { quantity := "coordinate", vectorComponent := some "theta",
                            phasorComponent := none, units := some "degrees",
                            description := none },
                  data := [Value.num 0, Value.num 1] },
                { desc := { quantity := "coordinate", vectorComponent := some "phi",
                            phasorComponent := none, units := some "degrees",
                            description := none },
                  data := [Value.num 0, Value.num 0] },
                { desc := { quantity := "electric field", vectorComponent := some "theta",
                            phasorComponent := some "real", units := some "V/m",
                            description := none },
                  data := [Value.num (Rat.divInt 123 100), Value.num (Rat.divInt 29 20)] } ],
              frequency := some { value := 1000000000, units := "Hz" },
              position := some { units := "meters", x := 0, y := 0, z := 0 },
              named := [],
              descr := none }],
          source := .vlist ["FEKO", "Exported by FEKO"],
          date := none } := by decide

/-- Counterexample for C8 as stated: with two `#Date:` headers the returned
document's date is the bare string of the LAST header only — the first
value is overwritten because a bare string cannot be appended to — not an
ordered sequence retaining both. -/
theorem c8_counterexample :
    ((read ["#Date: 2020-01-01", "#Date: 2021-02-02"]).map (fun c => c.date)
      = .ok (some (.vstr "2021-02-02"))) ∧
    some (TopVal.vstr "2021-02-02") ≠
      some (TopVal.vlist ["2020-01-01", "2021-02-02"]) :=
  ⟨by decide, by decide⟩

/-- Claim C8 (amended): merging a `Date` header applies the source's
try-append-except-overwrite rule; since date values are stored as bare
strings, a second `Date` header OVERWRITES the stored value, so the
document retains only the last date (the seeded `source` list, by contrast,
does accumulate). -/
theorem c8_amended (st st2 : RState) (l : String) (d : String) (tb : Tbl)
    (hh : isHeader (pyStrip l) = true)
    (hp : parseHeader (sealIfNew st).tbl (pyStrip l) = .ok (tb, some (.aDate d)))
    (hs : step st l = .ok st2) :
    st2.date = some (mergeTop st.date d) ∧
      (∀ s0, st.date = some (.vstr s0) → st2.date = some (.vstr d)) := by
  simp only [step] at hs
  rw [if_pos hh] at hs
  simp only [stepHeader] at hs
  rw [hp] at hs
  simp only [mergeAssign, Except.ok.injEq] at hs
  constructor
  · rw [← hs]
    show some (mergeTop ({ sealIfNew st with tbl := tb } : RState).date d) = _
    rw [show ({ sealIfNew st with tbl := tb } : RState).date = st.date from sealIfNew_date st]
  · intro s0 h0
    rw [← hs]
    show some (mergeTop ({ sealIfNew st with tbl := tb } : RState).date d) = _
    rw [show ({ sealIfNew st with tbl := tb } : RState).date = st.date from sealIfNew_date st,
      h0]
    rfl

/-- Witness for C8 (amended): a state already holding the bare date string
`2020-01-01` processes `#Date: 2021-02-02` and ends holding only the new
bare string. -/
theorem c8_amended_witness :
    c8Post.date = some (TopVal.vstr "2021-02-02") :=
  (c8_amended c8Pre c8Post "#Date: 2021-02-02" "2021-02-02" initTbl (by decide)
    (by decide) (by decide)).2 "2020-01-01" rfl

end Feko
